import Mathlib

/-!
Shallow embedding of `ModbusControl.py` (class `BaseClient`): the chunked
register I/O layer (`read_input_register`, `read_holding_register`,
`write_holding_register`), the command state machine (`execute_command`),
and the status enumerations.

Modelling conventions:
* Register values travel as `Nat` (the transport delivers unsigned 16-bit
  words); the signed reinterpretation of the device error code is `Int`.
* Wall-clock time (`time.time()`) is an abstract integer tick counter held in
  the client state; every transport exchange advances it by the duration
  recorded in the environment script, and `time.sleep(0.05)` advances it by a
  fixed 50 ticks.  Timeouts are measured in the same ticks.
* The serial transport is external: each call to `client.execute` consumes
  the next entry of an environment script that dictates the outcome (returned
  values, `ModbusInvalidResponseError`, `modbus.ModbusError` with an exception
  code, or any other exception).  An exhausted script behaves like an
  unclassified exception so that the model stays total.
* Every issued transport request is also recorded in a call trace so that
  ordering properties are observable.
* The unbounded `while True` retry/poll loops are run on fuel; the top-level
  wrappers pass `script length + 1` fuel, which is enough because every retry
  consumes at least one script entry.
-/

namespace ModbusControl

instance instDecEqExcept {ε α : Type} [DecidableEq ε] [DecidableEq α] :
    DecidableEq (Except ε α) := fun x y =>
  match x, y with
  | .ok a, .ok b =>
    if h : a = b then isTrue (h ▸ rfl) else isFalse (fun he => h (Except.ok.inj he))
  | .error a, .error b =>
    if h : a = b then isTrue (h ▸ rfl) else isFalse (fun he => h (Except.error.inj he))
  | .ok _, .error _ => isFalse (fun he => Except.noConfusion he)
  | .error _, .ok _ => isFalse (fun he => Except.noConfusion he)

/-- Modbus low-level return codes (Python enum `ModbusStatus`). -/
inductive ModbusStatus where
  | ok
  | illegalFunction
  | illegalDataAddress
  | illegalDataValue
  | slaveDeviceFailure
  | acknowledge
  | slaveDeviceBusy
  | negativeAcknowledge
  | memoryParityError
  | gatewayPathUnavailable
  | gatewayTargetDeviceFailedToRespond
  | unknown
deriving DecidableEq, Repr

/-- `ModbusStatus(code)`: the Python enum lookup by value.  It succeeds only
for the codes enumerated in the class and raises `ValueError` otherwise,
which the model renders as `none`. -/
def ModbusStatus.fromCode (c : Int) : Option ModbusStatus :=
  if c = 0 then some .ok
  else if c = 1 then some .illegalFunction
  else if c = 2 then some .illegalDataAddress
  else if c = 3 then some .illegalDataValue
  else if c = 4 then some .slaveDeviceFailure
  else if c = 5 then some .acknowledge
  else if c = 6 then some .slaveDeviceBusy
  else if c = 7 then some .negativeAcknowledge
  else if c = 8 then some .memoryParityError
  else if c = 9 then some .gatewayPathUnavailable
  else if c = 10 then some .gatewayTargetDeviceFailedToRespond
  else if c = 255 then some .unknown
  else none

/-- ModbusControl high-level return codes (Python enum `ModbusControlStatus`):
only `ILLEGAL_CMD = -1` and `ILLEGAL_PARAM = -2` are enumerated. -/
inductive ModbusControlStatus where
  | illegalCmd
  | illegalParam
deriving DecidableEq, Repr

/-- `ModbusControlStatus(code)`: Python enum lookup by value; `none` models
the `ValueError` raised for every code outside `{-1, -2}`. -/
def ModbusControlStatus.fromCode (c : Int) : Option ModbusControlStatus :=
  if c = -1 then some .illegalCmd
  else if c = -2 then some .illegalParam
  else none

/-- Outcome of one raw transport exchange (`self.client.execute`). -/
inductive TRes where
  | ok (values : List Nat)
  | invalidResponse
  | modbusError (code : Int)
  | otherError
deriving DecidableEq, Repr

/-- `true` exactly on successful transport outcomes. -/
def TRes.isOk : TRes → Bool
  | .ok _ => true
  | _ => false

/-- `true` when a successful outcome carries exactly `n` values (and on every
non-`ok` outcome, which carries no values at all). -/
def TRes.okLenIs (n : Nat) : TRes → Bool
  | .ok v => v.length == n
  | _ => true

/-- One environment-script entry: how long the exchange takes (ticks) and how
it ends. -/
structure Entry where
  dur : Nat
  res : TRes
deriving DecidableEq, Repr

/-- A transport request, as recorded in the call trace. -/
inductive Call where
  | readInput (slave addr : Int) (count : Nat)
  | readHolding (slave addr : Int) (count : Nat)
  | writeHolding (slave addr : Int) (values : List Nat)
deriving DecidableEq, Repr

/-- Mutable client-side state: the clock, the transport receive timeout
currently programmed into the RTU master (`self.client.set_timeout`), the
remaining environment script, and the trace of issued transport calls. -/
structure ClientState where
  clock : Nat
  tmo : Int
  script : List Entry
  calls : List Call
deriving DecidableEq, Repr

/-- Perform one transport exchange: record the call, consume the next script
entry, advance the clock.  An exhausted script acts as an unclassified
exception. -/
def step (s : ClientState) (c : Call) : TRes × ClientState :=
  match s.script with
  | [] => (.otherError, { s with calls := s.calls ++ [c] })
  | e :: rest =>
    (e.res, { s with clock := s.clock + e.dur, script := rest, calls := s.calls ++ [c] })

/-- Chunking loop of the two read functions (blocksize 100): ascending
`(start address, count)` chunks covering `n` registers from `address`.
Python iterates `while _curr_address < address + num_out`; the fuel argument
`n` bounds the iteration count (each chunk covers at least one register). -/
def readBlocksAux : Nat → Int → Nat → List (Int × Nat)
  | 0, _, _ => []
  | fuel + 1, address, n =>
    if n = 0 then []
    else
      let c := min 100 n
      (address, c) :: readBlocksAux fuel (address + c) (n - c)

/-- The `_blocks` list built by `read_input_register` (and, before the
`reverse()`, by `read_holding_register`). -/
def readBlocks (address : Int) (n : Nat) : List (Int × Nat) :=
  readBlocksAux n address n

/-- Chunking loop of `write_holding_register` before its `reverse()`:
`values[idx:idx+100]` written to `address + idx` for `idx = 0, 100, ...`.
Fuel is the number of remaining values (each chunk consumes at least one). -/
def ascChunksAux : Nat → Int → List Nat → List (Int × List Nat)
  | 0, _, _ => []
  | fuel + 1, address, vs =>
    if vs = [] then []
    else (address, vs.take 100) :: ascChunksAux fuel (address + 100) (vs.drop 100)

/-- Ascending write chunks. -/
def ascChunks (address : Int) (vs : List Nat) : List (Int × List Nat) :=
  ascChunksAux vs.length address vs

/-- The `_blocks` list actually iterated by `write_holding_register`: the
ascending chunks, reversed, so the chunk at the caller's (lowest) address is
transmitted last. -/
def writeBlocks (address : Int) (vs : List Nat) : List (Int × List Nat) :=
  (ascChunks address vs).reverse

/-- Transport-level failure of one chunk attempt (the exception that aborts
the `for _block in _blocks` loop). -/
inductive TErr where
  | invalidResponse
  | modbusError (code : Int)
  | otherError
deriving DecidableEq, Repr

/-- Body of one `try:` attempt of the read functions: issue each chunk in
list order, merging with `_result = list(_reg) + _result` (prepend). -/
def runReadBlocks (slave : Int) (mk : Int → Int → Nat → Call) :
    List (Int × Nat) → List Nat → ClientState → Except TErr (List Nat) × ClientState
  | [], acc, s => (.ok acc, s)
  | b :: bs, acc, s =>
    match step s (mk slave b.1 b.2) with
    | (.ok vals, s') => runReadBlocks slave mk bs (vals ++ acc) s'
    | (.invalidResponse, s') => (.error .invalidResponse, s')
    | (.modbusError c, s') => (.error (.modbusError c), s')
    | (.otherError, s') => (.error .otherError, s')

/-- Body of one `try:` attempt of `write_holding_register`: issue each chunk
in list order, with `_result[0] = _reg[0]; _result[1] += _reg[1]`.  The
transport acknowledgement is a `(start address, quantity)` pair, modelled as
the first two values of the script entry. -/
def runWriteBlocks (slave : Int) :
    List (Int × List Nat) → Nat × Nat → ClientState →
      Except TErr (Nat × Nat) × ClientState
  | [], acc, s => (.ok acc, s)
  | b :: bs, acc, s =>
    match step s (.writeHolding slave b.1 b.2) with
    | (.ok vals, s') => runWriteBlocks slave bs (vals.headD 0, acc.2 + vals.getD 1 0) s'
    | (.invalidResponse, s') => (.error .invalidResponse, s')
    | (.modbusError c, s') => (.error (.modbusError c), s')
    | (.otherError, s') => (.error .otherError, s')

/-- The exceptions that can leave the modelled methods. -/
inductive ExErr where
  | timeoutAbort
  | modbusAbort (st : ModbusStatus)
  | otherAbort
  | valueError
  | deviceError (code : Int)
  | shortErrorResponse
  | shortResponse
deriving DecidableEq, Repr

/-- Which of the surfaced exceptions are `ModbusControlError`:
`valueError` models Python's built-in `ValueError` and `shortResponse`
models the `ModbusInvalidResponseError` raised by `execute_command`. -/
def isModbusControlError : ExErr → Bool
  | .valueError => false
  | .shortResponse => false
  | _ => true

/-- `if timeout_modbus is not None: self.client.set_timeout(timeout_modbus)`:
the override applied on entry to every method. -/
def setOvr (ovr : Option Int) (s : ClientState) : ClientState :=
  match ovr with
  | some t => { s with tmo := t }
  | none => s

/-- `if timeout_modbus is not None: self.client.set_timeout(self._timeout_modbus)`:
the restore executed on the exit paths of every method. -/
def restoreIf (ovr : Option Int) (defT : Int) (s : ClientState) : ClientState :=
  match ovr with
  | some _ => { s with tmo := defT }
  | none => s

/-- The `except (modbus.ModbusError, BaseException)` handler shared by the
three register functions: a `modbus.ModbusError` is first converted through
the `ModbusStatus` enum — which itself raises `ValueError` for an exception
code outside the enumeration, skipping the timeout restore — and everything
else is stringified; both then restore the timeout and raise
`ModbusControlError`. -/
def fatalResult (defT : Int) (ovr : Option Int) (e : TErr) (s : ClientState) :
    ExErr × ClientState :=
  match e with
  | .modbusError c =>
    match ModbusStatus.fromCode c with
    | some st => (.modbusAbort st, restoreIf ovr defT s)
    | none => (.valueError, s)
  | _ => (.otherAbort, restoreIf ovr defT s)

/-- The `while True` retry loop of the two read functions.  `start` is the
`_start_time` captured when the method was entered, `T` the resolved
`_timeout_command`.  On `ModbusInvalidResponseError`: retry after a 50-tick
sleep while `time.time() - _start_time < _timeout_command`, else restore and
raise the timeout `ModbusControlError`. -/
def readRetry (defT : Int) (ovr : Option Int) (T : Nat) (start : Nat) (slave : Int)
    (mk : Int → Int → Nat → Call) (blocks : List (Int × Nat)) :
    Nat → ClientState → Except ExErr (List Nat) × ClientState
  | 0, s => (.error .otherAbort, s)
  | fuel + 1, s =>
    match runReadBlocks slave mk blocks [] s with
    | (.ok vals, s') => (.ok vals, restoreIf ovr defT s')
    | (.error .invalidResponse, s') =>
      if s'.clock - start < T then
        readRetry defT ovr T start slave mk blocks fuel { s' with clock := s'.clock + 50 }
      else
        (.error .timeoutAbort, restoreIf ovr defT s')
    | (.error e, s') =>
      let r := fatalResult defT ovr e s'
      (.error r.1, r.2)

/-- The `while True` retry loop of `write_holding_register`; `_result` is
re-initialised to `[0, 0]` at the top of every attempt. -/
def writeRetry (defT : Int) (ovr : Option Int) (T : Nat) (start : Nat) (slave : Int)
    (blocks : List (Int × List Nat)) :
    Nat → ClientState → Except ExErr (Nat × Nat) × ClientState
  | 0, s => (.error .otherAbort, s)
  | fuel + 1, s =>
    match runWriteBlocks slave blocks (0, 0) s with
    | (.ok res, s') => (.ok res, restoreIf ovr defT s')
    | (.error .invalidResponse, s') =>
      if s'.clock - start < T then
        writeRetry defT ovr T start slave blocks fuel { s' with clock := s'.clock + 50 }
      else
        (.error .timeoutAbort, restoreIf ovr defT s')
    | (.error e, s') =>
      let r := fatalResult defT ovr e s'
      (.error r.1, r.2)

/-- `BaseClient.read_input_register`: optional receive-timeout override,
per-call `_start_time`, ascending chunks, retry loop.  `defT` is
`self._timeout_modbus`, `defTc` is `self._timeout_command`, `ovr` and `tc`
the per-call overrides.  Returns the `"values"` list or the raised error. -/
def read_input_register (defT : Int) (defTc : Nat) (slave address : Int) (numOut : Nat)
    (ovr : Option Int) (tc : Option Nat) (s0 : ClientState) :
    Except ExErr (List Nat) × ClientState :=
  let s1 := setOvr ovr s0
  let T := tc.getD defTc
  let start := s1.clock
  readRetry defT ovr T start slave Call.readInput (readBlocks address numOut)
    (s1.script.length + 1) s1

/-- `BaseClient.read_holding_register`: identical to the input-register read
except that the chunk list is reversed (`_blocks.reverse()`), so the chunk at
the caller's address is fetched last. -/
def read_holding_register (defT : Int) (defTc : Nat) (slave address : Int) (numOut : Nat)
    (ovr : Option Int) (tc : Option Nat) (s0 : ClientState) :
    Except ExErr (List Nat) × ClientState :=
  let s1 := setOvr ovr s0
  let T := tc.getD defTc
  let start := s1.clock
  readRetry defT ovr T start slave Call.readHolding ((readBlocks address numOut).reverse)
    (s1.script.length + 1) s1

/-- `BaseClient.write_holding_register`: reversed chunks, retry loop.
Returns the `"status"` pair `[_result[0], _result[1]]` or the raised error. -/
def write_holding_register (defT : Int) (defTc : Nat) (slave address : Int)
    (values : List Nat) (ovr : Option Int) (tc : Option Nat) (s0 : ClientState) :
    Except ExErr (Nat × Nat) × ClientState :=
  let s1 := setOvr ovr s0
  let T := tc.getD defTc
  let start := s1.clock
  writeRetry defT ovr T start slave (writeBlocks address values)
    (s1.script.length + 1) s1

/-- The uint16-to-int16 reinterpretation of the device error code in
`execute_command`: `if _err > 2 ** 15: _err = -(2 ** 16 - _err)`. -/
def decodeErr (raw : Nat) : Int :=
  if (raw : Int) > 2 ^ 15 then -(2 ^ 16 - (raw : Int)) else (raw : Int)

/-- The `while True` polling loop of `execute_command`: read
`max(1 + num_out, 2)` holding registers from address 0 (each such call takes
a fresh `_start_time` inside `read_holding_register`); raise
`ModbusInvalidResponseError` when fewer than 1 register comes back; leave the
loop once bit 15 of register 0 is clear. -/
def pollLoop (defT : Int) (defTc : Nat) (slave : Int) (numOut : Nat)
    (ovr : Option Int) (tc : Option Nat) :
    Nat → ClientState → Except ExErr (List Nat) × ClientState
  | 0, s => (.error .otherAbort, s)
  | fuel + 1, s =>
    match read_holding_register defT defTc slave 0 (max (1 + numOut) 2) ovr tc s with
    | (.error e, s') => (.error e, s')
    | (.ok regs, s') =>
      if regs.length < 1 then (.error .shortResponse, restoreIf ovr defT s')
      else if regs.headD 0 &&& 0x8000 = 0 then (.ok regs, s')
      else pollLoop defT defTc slave numOut ovr tc fuel s'

/-- `BaseClient.execute_command`: write `[command] + param_in` to holding
address 0, poll until bit 15 of register 0 clears, then decode bit 14 / the
error code, restore the timeout and return registers `1 .. num_out`. -/
def execute_command (defT : Int) (defTc : Nat) (slave : Int) (command : Nat)
    (paramIn : List Nat) (numOut : Nat) (ovr : Option Int) (tc : Option Nat)
    (s0 : ClientState) : Except ExErr (List Nat) × ClientState :=
  match write_holding_register defT defTc slave 0 (command :: paramIn) ovr tc s0 with
  | (.error e, s1) => (.error e, s1)
  | (.ok _, s1) =>
    match pollLoop defT defTc slave numOut ovr tc (s1.script.length + 1) s1 with
    | (.error e, s2) => (.error e, s2)
    | (.ok regs, s2) =>
      if regs.headD 0 &&& 0x4000 ≠ 0 then
        if regs.length < 2 then (.error .shortErrorResponse, restoreIf ovr defT s2)
        else
          match ModbusControlStatus.fromCode (decodeErr (regs.getD 1 0)) with
          | some _ => (.error (.deviceError (decodeErr (regs.getD 1 0))), restoreIf ovr defT s2)
          | none => (.error .valueError, s2)
      else (.ok ((regs.drop 1).take numOut), restoreIf ovr defT s2)

set_option maxRecDepth 100000

theorem readBlocksAux_zero (fuel : Nat) (a : Int) : readBlocksAux fuel a 0 = [] := by
  cases fuel <;> simp [readBlocksAux]

theorem readBlocks_single (a : Int) (n : Nat) (h1 : 1 ≤ n) (h2 : n ≤ 100) :
    readBlocks a n = [(a, n)] := by
  cases n with
  | zero => omega
  | succ m =>
    have hmin : min 100 (m + 1) = m + 1 := by omega
    simp [readBlocks, readBlocksAux, hmin, readBlocksAux_zero]

theorem readBlocks_ne_nil (a : Int) (n : Nat) (h : n ≠ 0) : readBlocks a n ≠ [] := by
  cases n with
  | zero => exact absurd rfl h
  | succ m => simp [readBlocks, readBlocksAux]

theorem ascChunksAux_congr :
    ∀ (f1 f2 : Nat) (a : Int) (vs : List Nat), vs.length ≤ f1 → vs.length ≤ f2 →
      ascChunksAux f1 a vs = ascChunksAux f2 a vs := by
  intro f1
  induction f1 with
  | zero =>
    intro f2 a vs h1 h2
    have hv : vs = [] := List.eq_nil_of_length_eq_zero (Nat.le_zero.mp h1)
    subst hv
    cases f2 <;> simp [ascChunksAux]
  | succ f ih =>
    intro f2 a vs h1 h2
    cases f2 with
    | zero =>
      have hv : vs = [] := List.eq_nil_of_length_eq_zero (Nat.le_zero.mp h2)
      subst hv
      simp [ascChunksAux]
    | succ g =>
      by_cases hvs : vs = []
      · subst hvs; simp [ascChunksAux]
      · have hl : 1 ≤ vs.length := List.length_pos.mpr hvs
        have hd : (vs.drop 100).length = vs.length - 100 := List.length_drop 100 vs
        simp only [ascChunksAux, if_neg hvs]
        congr 1
        exact ih g (a + 100) (vs.drop 100) (by omega) (by omega)

theorem ascChunks_cons (a : Int) (vs : List Nat) (h : vs ≠ []) :
    ascChunks a vs = (a, vs.take 100) :: ascChunks (a + 100) (vs.drop 100) := by
  cases vs with
  | nil => exact absurd rfl h
  | cons x t =>
    show ascChunksAux (x :: t).length a (x :: t) = _
    simp only [List.length_cons, ascChunksAux, if_neg (List.cons_ne_nil x t)]
    congr 1
    apply ascChunksAux_congr
    · simp [List.length_drop]
    · simp [ascChunks]

theorem ascChunksAux_lb :
    ∀ (fuel : Nat) (a : Int) (vs : List Nat) (b : Int × List Nat),
      b ∈ ascChunksAux fuel a vs → a ≤ b.1 := by
  intro fuel
  induction fuel with
  | zero => intro a vs b hb; simp [ascChunksAux] at hb
  | succ f ih =>
    intro a vs b hb
    by_cases hvs : vs = []
    · subst hvs; simp [ascChunksAux] at hb
    · simp only [ascChunksAux, if_neg hvs, List.mem_cons] at hb
      rcases hb with hb | hb
      · subst hb; exact le_refl a
      · have := ih (a + 100) (vs.drop 100) b hb
        omega

theorem ascChunks_lb (a : Int) (vs : List Nat) (b : Int × List Nat)
    (hb : b ∈ ascChunks a vs) : a ≤ b.1 :=
  ascChunksAux_lb vs.length a vs b hb

theorem ascChunks_ne_nil (a : Int) (vs : List Nat) (h : vs ≠ []) : ascChunks a vs ≠ [] := by
  rw [ascChunks_cons a vs h]
  simp

theorem runWriteBlocks_ok (slave : Int) :
    ∀ (blocks : List (Int × List Nat)) (acc : Nat × Nat) (s : ClientState),
      blocks.length ≤ s.script.length →
      (∀ e ∈ s.script.take blocks.length, e.res.isOk = true) →
      ∃ r s', runWriteBlocks slave blocks acc s = (.ok r, s') ∧
        s'.calls = s.calls ++ blocks.map (fun b => Call.writeHolding slave b.1 b.2) ∧
        s'.script = s.script.drop blocks.length ∧ s'.tmo = s.tmo := by
  intro blocks
  induction blocks with
  | nil =>
    intro acc s _ _
    exact ⟨acc, s, rfl, by simp, by simp, rfl⟩
  | cons b bs ih =>
    intro acc s hlen hok
    cases hs : s.script with
    | nil => rw [hs] at hlen; simp at hlen
    | cons e rest =>
      have he : e.res.isOk = true := by
        apply hok
        rw [hs]
        simp [List.take_cons]
      obtain ⟨v, hv⟩ : ∃ v, e.res = .ok v := by
        cases hres : e.res with
        | ok v => exact ⟨v, rfl⟩
        | _ => rw [hres] at he; simp [TRes.isOk] at he
      have hlen' : bs.length ≤ rest.length := by
        rw [hs] at hlen; simp at hlen; omega
      have hok' : ∀ e' ∈ rest.take bs.length, e'.res.isOk = true := by
        intro e' he'
        apply hok
        rw [hs, List.length_cons, List.take_succ_cons]
        exact List.mem_cons_of_mem e he'
      obtain ⟨r, s', heq, hcalls, hscript, htmo⟩ :=
        ih (v.headD 0, acc.2 + v.getD 1 0)
          { s with clock := s.clock + e.dur, script := rest,
                   calls := s.calls ++ [Call.writeHolding slave b.1 b.2] }
          hlen' hok'
      refine ⟨r, s', ?_, ?_, ?_, ?_⟩
      · simp only [runWriteBlocks, step, hs, hv]
        exact heq
      · rw [hcalls]; simp
      · rw [hscript]; simp [hs]
      · rw [htmo]

theorem runReadBlocks_state (slave : Int) (mk : Int → Int → Nat → Call) :
    ∀ (blocks : List (Int × Nat)) (acc : List Nat) (s : ClientState),
      ∃ k L, (runReadBlocks slave mk blocks acc s).2.script = s.script.drop k ∧
        (runReadBlocks slave mk blocks acc s).2.calls = s.calls ++ L ∧
        (∀ cl ∈ L, ∃ b ∈ blocks, cl = mk slave b.1 b.2) ∧
        (runReadBlocks slave mk blocks acc s).2.tmo = s.tmo := by
  intro blocks
  induction blocks with
  | nil =>
    intro acc s
    refine ⟨0, [], ?_, ?_, ?_, ?_⟩
    · simp [runReadBlocks]
    · simp [runReadBlocks]
    · intro cl hcl; exact absurd hcl (List.not_mem_nil cl)
    · simp [runReadBlocks]
  | cons b bs ih =>
    intro acc s
    cases hs : s.script with
    | nil =>
      refine ⟨0, [mk slave b.1 b.2], ?_, ?_, ?_, ?_⟩
      · simp [runReadBlocks, step, hs]
      · simp [runReadBlocks, step, hs]
      · intro cl hcl
        refine ⟨b, List.mem_cons_self b bs, ?_⟩
        simpa using hcl
      · simp [runReadBlocks, step, hs]
    | cons e rest =>
      cases hres : e.res with
      | ok v =>
        obtain ⟨k, L, h1, h2, h3, h4⟩ :=
          ih (v ++ acc)
            { s with clock := s.clock + e.dur, script := rest,
                     calls := s.calls ++ [mk slave b.1 b.2] }
        refine ⟨k + 1, mk slave b.1 b.2 :: L, ?_, ?_, ?_, ?_⟩
        · simp only [runReadBlocks, step, hs, hres]
          rw [h1]
          simp [hs]
        · simp only [runReadBlocks, step, hs, hres]
          rw [h2]
          simp
        · intro cl hcl
          rcases List.mem_cons.mp hcl with hcl | hcl
          · exact ⟨b, List.mem_cons_self b bs, hcl⟩
          · obtain ⟨b2, hb2, hcl2⟩ := h3 cl hcl
            exact ⟨b2, List.mem_cons_of_mem b hb2, hcl2⟩
        · simp only [runReadBlocks, step, hs, hres]
          rw [h4]
      | invalidResponse =>
        refine ⟨1, [mk slave b.1 b.2], ?_, ?_, ?_, ?_⟩
        · simp [runReadBlocks, step, hs, hres]
        · simp [runReadBlocks, step, hs, hres]
        · intro cl hcl
          refine ⟨b, List.mem_cons_self b bs, ?_⟩
          simpa using hcl
        · simp [runReadBlocks, step, hs, hres]
      | modbusError c =>
        refine ⟨1, [mk slave b.1 b.2], ?_, ?_, ?_, ?_⟩
        · simp [runReadBlocks, step, hs, hres]
        · simp [runReadBlocks, step, hs, hres]
        · intro cl hcl
          refine ⟨b, List.mem_cons_self b bs, ?_⟩
          simpa using hcl
        · simp [runReadBlocks, step, hs, hres]
      | otherError =>
        refine ⟨1, [mk slave b.1 b.2], ?_, ?_, ?_, ?_⟩
        · simp [runReadBlocks, step, hs, hres]
        · simp [runReadBlocks, step, hs, hres]
        · intro cl hcl
          refine ⟨b, List.mem_cons_self b bs, ?_⟩
          simpa using hcl
        · simp [runReadBlocks, step, hs, hres]

theorem runReadBlocks_single_ok (slave : Int) (mk : Int → Int → Nat → Call)
    (b : Int × Nat) (s : ClientState) (regs : List Nat)
    (h : (runReadBlocks slave mk [b] [] s).1 = .ok regs) :
    ∃ e ∈ s.script, e.res = .ok regs := by
  cases hs : s.script with
  | nil => simp [runReadBlocks, step, hs] at h
  | cons e rest =>
    cases hres : e.res with
    | ok v =>
      simp only [runReadBlocks, step, hs, hres] at h
      have hregs : regs = v := by
        have h2 := Except.ok.inj h
        simpa using h2.symm
      exact ⟨e, by simp [hs], by rw [hres, hregs]⟩
    | invalidResponse => simp [runReadBlocks, step, hs, hres] at h
    | modbusError c => simp [runReadBlocks, step, hs, hres] at h
    | otherError => simp [runReadBlocks, step, hs, hres] at h

theorem runReadBlocks_state2 (slave : Int) (mk : Int → Int → Nat → Call)
    (blocks : List (Int × Nat)) (acc : List Nat) (s : ClientState)
    (res : Except TErr (List Nat)) (s2 : ClientState)
    (h : runReadBlocks slave mk blocks acc s = (res, s2)) :
    ∃ k L, s2.script = s.script.drop k ∧ s2.calls = s.calls ++ L ∧
      (∀ cl ∈ L, ∃ b ∈ blocks, cl = mk slave b.1 b.2) := by
  obtain ⟨k, L, h1, h2, h3, _⟩ := runReadBlocks_state slave mk blocks acc s
  rw [h] at h1 h2
  dsimp only at h1 h2
  exact ⟨k, L, h1, h2, h3⟩

theorem restoreIf_script (ovr : Option Int) (defT : Int) (s : ClientState) :
    (restoreIf ovr defT s).script = s.script := by cases ovr <;> rfl

theorem restoreIf_calls (ovr : Option Int) (defT : Int) (s : ClientState) :
    (restoreIf ovr defT s).calls = s.calls := by cases ovr <;> rfl

theorem setOvr_script (ovr : Option Int) (s : ClientState) :
    (setOvr ovr s).script = s.script := by cases ovr <;> rfl

theorem setOvr_calls (ovr : Option Int) (s : ClientState) :
    (setOvr ovr s).calls = s.calls := by cases ovr <;> rfl

theorem setOvr_clock (ovr : Option Int) (s : ClientState) :
    (setOvr ovr s).clock = s.clock := by cases ovr <;> rfl

theorem fatalResult_state (defT : Int) (ovr : Option Int) (e : TErr) (s : ClientState) :
    (fatalResult defT ovr e s).2.script = s.script ∧
    (fatalResult defT ovr e s).2.calls = s.calls := by
  cases e with
  | modbusError c =>
    rcases hf : ModbusStatus.fromCode c with _ | st <;>
      simp [fatalResult, hf, restoreIf_script, restoreIf_calls]
  | invalidResponse => simp [fatalResult, restoreIf_script, restoreIf_calls]
  | otherError => simp [fatalResult, restoreIf_script, restoreIf_calls]

theorem readRetry_state (defT : Int) (ovr : Option Int) (T start : Nat) (slave : Int)
    (mk : Int → Int → Nat → Call) (blocks : List (Int × Nat)) :
    ∀ (fuel : Nat) (s : ClientState) (res : Except ExErr (List Nat)) (s' : ClientState),
      readRetry defT ovr T start slave mk blocks fuel s = (res, s') →
      ∃ k L, s'.script = s.script.drop k ∧ s'.calls = s.calls ++ L ∧
        (∀ cl ∈ L, ∃ b ∈ blocks, cl = mk slave b.1 b.2) := by
  intro fuel
  induction fuel with
  | zero =>
    intro s res s' h
    simp only [readRetry] at h
    cases h
    exact ⟨0, [], by simp, by simp, fun cl hcl => absurd hcl (List.not_mem_nil cl)⟩
  | succ fuel ih =>
    intro s res s' h
    rcases hrb : runReadBlocks slave mk blocks [] s with ⟨bres, s2⟩
    obtain ⟨k, L, hk1, hk2, hk3⟩ := runReadBlocks_state2 slave mk blocks [] s bres s2 hrb
    simp only [readRetry, hrb] at h
    cases bres with
    | ok vals =>
      cases h
      exact ⟨k, L, by rw [restoreIf_script, hk1], by rw [restoreIf_calls, hk2], hk3⟩
    | error te =>
      cases te with
      | invalidResponse =>
        have hif : (if s2.clock - start < T then
              readRetry defT ovr T start slave mk blocks fuel
                { s2 with clock := s2.clock + 50 }
            else (.error .timeoutAbort, restoreIf ovr defT s2)) = (res, s') := h
        by_cases ht : s2.clock - start < T
        · rw [if_pos ht] at hif
          obtain ⟨k2, L2, h1, h2, h3⟩ := ih _ res s' hif
          dsimp only at h1 h2
          refine ⟨k + k2, L ++ L2, ?_, ?_, ?_⟩
          · rw [h1, hk1, List.drop_drop, Nat.add_comm]
          · rw [h2, hk2, List.append_assoc]
          · intro cl hcl
            rcases List.mem_append.mp hcl with hcl | hcl
            · exact hk3 cl hcl
            · exact h3 cl hcl
        · rw [if_neg ht] at hif
          cases hif
          exact ⟨k, L, by rw [restoreIf_script, hk1], by rw [restoreIf_calls, hk2], hk3⟩
      | modbusError c =>
        have hf := fatalResult_state defT ovr (.modbusError c) s2
        cases h
        exact ⟨k, L, by rw [hf.1, hk1], by rw [hf.2, hk2], hk3⟩
      | otherError =>
        have hf := fatalResult_state defT ovr .otherError s2
        cases h
        exact ⟨k, L, by rw [hf.1, hk1], by rw [hf.2, hk2], hk3⟩

theorem readRetry_ok_entry (defT : Int) (ovr : Option Int) (T start : Nat) (slave : Int)
    (mk : Int → Int → Nat → Call) (b : Int × Nat) :
    ∀ (fuel : Nat) (s : ClientState) (regs : List Nat) (s' : ClientState),
      readRetry defT ovr T start slave mk [b] fuel s = (.ok regs, s') →
      ∃ e ∈ s.script, e.res = .ok regs := by
  intro fuel
  induction fuel with
  | zero => intro s regs s' h; simp [readRetry] at h
  | succ fuel ih =>
    intro s regs s' h
    rcases hrb : runReadBlocks slave mk [b] [] s with ⟨bres, s2⟩
    simp only [readRetry, hrb] at h
    cases bres with
    | ok vals =>
      have hv : vals = regs := by
        have h2 := congrArg Prod.fst h
        simpa using h2
      subst hv
      exact runReadBlocks_single_ok slave mk b s vals (by rw [hrb])
    | error te =>
      cases te with
      | invalidResponse =>
        have hif : (if s2.clock - start < T then
              readRetry defT ovr T start slave mk [b] fuel
                { s2 with clock := s2.clock + 50 }
            else (.error .timeoutAbort, restoreIf ovr defT s2)) = (.ok regs, s') := h
        by_cases ht : s2.clock - start < T
        · rw [if_pos ht] at hif
          obtain ⟨e, he, hres⟩ := ih _ _ _ hif
          dsimp only at he
          obtain ⟨k, L, hk1, _, _⟩ := runReadBlocks_state2 slave mk [b] [] s _ s2 hrb
          rw [hk1] at he
          exact ⟨e, List.drop_subset k s.script he, hres⟩
        · rw [if_neg ht] at hif
          exact absurd (congrArg Prod.fst hif) (by simp)
      | modbusError c =>
        exact absurd (congrArg Prod.fst h) (by simp)
      | otherError =>
        exact absurd (congrArg Prod.fst h) (by simp)

theorem readRetry_first_fatal (defT : Int) (ovr : Option Int) (T start : Nat) (slave : Int)
    (mk : Int → Int → Nat → Call) (b : Int × Nat) (bs : List (Int × Nat))
    (c : Int) (st : ModbusStatus) (d : Nat) (rest : List Entry) (fuel : Nat) (s : ClientState)
    (hs : s.script = ⟨d, .modbusError c⟩ :: rest)
    (hst : ModbusStatus.fromCode c = some st) :
    readRetry defT ovr T start slave mk (b :: bs) (fuel + 1) s
      = (.error (.modbusAbort st),
         restoreIf ovr defT
           { s with clock := s.clock + d, script := rest,
                    calls := s.calls ++ [mk slave b.1 b.2] }) := by
  have hrb : runReadBlocks slave mk (b :: bs) [] s
      = (.error (.modbusError c),
         { s with clock := s.clock + d, script := rest,
                  calls := s.calls ++ [mk slave b.1 b.2] }) := by
    simp [runReadBlocks, step, hs]
  simp [readRetry, hrb, fatalResult, hst]

theorem writeRetry_first_fatal (defT : Int) (ovr : Option Int) (T start : Nat) (slave : Int)
    (b : Int × List Nat) (bs : List (Int × List Nat))
    (c : Int) (st : ModbusStatus) (d : Nat) (rest : List Entry) (fuel : Nat) (s : ClientState)
    (hs : s.script = ⟨d, .modbusError c⟩ :: rest)
    (hst : ModbusStatus.fromCode c = some st) :
    writeRetry defT ovr T start slave (b :: bs) (fuel + 1) s
      = (.error (.modbusAbort st),
         restoreIf ovr defT
           { s with clock := s.clock + d, script := rest,
                    calls := s.calls ++ [Call.writeHolding slave b.1 b.2] }) := by
  have hrb : runWriteBlocks slave (b :: bs) (0, 0) s
      = (.error (.modbusError c),
         { s with clock := s.clock + d, script := rest,
                  calls := s.calls ++ [Call.writeHolding slave b.1 b.2] }) := by
    simp [runWriteBlocks, step, hs]
  simp only [writeRetry, hrb, fatalResult, hst]

theorem writeRetry_first_attempt_ok (defT : Int) (ovr : Option Int) (T start : Nat)
    (slave : Int) (blocks : List (Int × List Nat)) (fuel : Nat) (s s2 : ClientState)
    (r : Nat × Nat) (h : runWriteBlocks slave blocks (0, 0) s = (.ok r, s2)) :
    writeRetry defT ovr T start slave blocks (fuel + 1) s = (.ok r, restoreIf ovr defT s2) := by
  simp only [writeRetry, h]

theorem read_holding_state2 (defT : Int) (defTc : Nat) (slave : Int) (n : Nat)
    (ovr : Option Int) (tc : Option Nat) (s : ClientState) (res : Except ExErr (List Nat))
    (s' : ClientState) (h1 : 1 ≤ n) (h2 : n ≤ 100)
    (h : read_holding_register defT defTc slave 0 n ovr tc s = (res, s')) :
    ∃ k L, s'.script = s.script.drop k ∧ s'.calls = s.calls ++ L ∧
      ∀ cl ∈ L, cl = Call.readHolding slave 0 n := by
  have hbl : (readBlocks 0 n).reverse = [(0, n)] := by
    rw [readBlocks_single 0 n h1 h2]
    rfl
  have h' : readRetry defT ovr (tc.getD defTc) ((setOvr ovr s).clock) slave Call.readHolding
      [(0, n)] ((setOvr ovr s).script.length + 1) (setOvr ovr s) = (res, s') := by
    rw [← hbl]
    exact h
  obtain ⟨k, L, hk1, hk2, hk3⟩ :=
    readRetry_state defT ovr (tc.getD defTc) ((setOvr ovr s).clock) slave Call.readHolding
      [(0, n)] ((setOvr ovr s).script.length + 1) (setOvr ovr s) res s' h'
  refine ⟨k, L, ?_, ?_, ?_⟩
  · rw [hk1, setOvr_script]
  · rw [hk2, setOvr_calls]
  · intro cl hcl
    obtain ⟨b2, hb2, hcl2⟩ := hk3 cl hcl
    have hb : b2 = (0, n) := by simpa using hb2
    rw [hcl2, hb]

theorem read_holding_ok_entry (defT : Int) (defTc : Nat) (slave : Int) (n : Nat)
    (ovr : Option Int) (tc : Option Nat) (s : ClientState) (regs : List Nat)
    (s' : ClientState) (h1 : 1 ≤ n) (h2 : n ≤ 100)
    (h : read_holding_register defT defTc slave 0 n ovr tc s = (.ok regs, s')) :
    ∃ e ∈ s.script, e.res = .ok regs := by
  have hbl : (readBlocks 0 n).reverse = [(0, n)] := by
    rw [readBlocks_single 0 n h1 h2]
    rfl
  have h' : readRetry defT ovr (tc.getD defTc) ((setOvr ovr s).clock) slave Call.readHolding
      [(0, n)] ((setOvr ovr s).script.length + 1) (setOvr ovr s) = (.ok regs, s') := by
    rw [← hbl]
    exact h
  have hent := readRetry_ok_entry defT ovr (tc.getD defTc) ((setOvr ovr s).clock) slave
    Call.readHolding (0, n) ((setOvr ovr s).script.length + 1) (setOvr ovr s) regs s' h'
  rw [setOvr_script] at hent
  exact hent

theorem read_holding_first_ok (defT : Int) (defTc : Nat) (slave : Int) (n : Nat)
    (ovr : Option Int) (tc : Option Nat) (e : Entry) (rest : List Entry)
    (s : ClientState) (v : List Nat) (h1 : 1 ≤ n) (h2 : n ≤ 100)
    (hs : s.script = e :: rest) (hres : e.res = .ok v) :
    read_holding_register defT defTc slave 0 n ovr tc s
      = (.ok v, restoreIf ovr defT
          { setOvr ovr s with
            clock := (setOvr ovr s).clock + e.dur
            script := rest
            calls := (setOvr ovr s).calls ++ [Call.readHolding slave 0 n] }) := by
  have hbl : (readBlocks 0 n).reverse = [(0, n)] := by
    rw [readBlocks_single 0 n h1 h2]
    rfl
  have hs1 : (setOvr ovr s).script = e :: rest := by rw [setOvr_script, hs]
  have hrb : runReadBlocks slave Call.readHolding [(0, n)] [] (setOvr ovr s)
      = (.ok (v ++ []),
         { setOvr ovr s with
           clock := (setOvr ovr s).clock + e.dur
           script := rest
           calls := (setOvr ovr s).calls ++ [Call.readHolding slave 0 n] }) := by
    simp [runReadBlocks, step, hs1, hres]
  show readRetry defT ovr (tc.getD defTc) ((setOvr ovr s).clock) slave Call.readHolding
      ((readBlocks 0 n).reverse) ((setOvr ovr s).script.length + 1) (setOvr ovr s) = _
  rw [hbl]
  simp only [readRetry, hrb, List.append_nil]

theorem write_holding_first_ok (defT : Int) (defTc : Nat) (slave : Int) (vs : List Nat)
    (ovr : Option Int) (tc : Option Nat) (e : Entry) (rest : List Entry)
    (s : ClientState) (v : List Nat)
    (hne : vs ≠ []) (hlen : vs.length ≤ 100) (hs : s.script = e :: rest)
    (hres : e.res = .ok v) :
    write_holding_register defT defTc slave 0 vs ovr tc s
      = (.ok (v.headD 0, v.getD 1 0), restoreIf ovr defT
          { setOvr ovr s with
            clock := (setOvr ovr s).clock + e.dur
            script := rest
            calls := (setOvr ovr s).calls ++ [Call.writeHolding slave 0 vs] }) := by
  have hwb : writeBlocks 0 vs = [(0, vs)] := by
    rw [writeBlocks, ascChunks_cons 0 vs hne, List.take_of_length_le hlen,
      List.drop_eq_nil_of_le hlen]
    rfl
  have hs1 : (setOvr ovr s).script = e :: rest := by rw [setOvr_script, hs]
  have hrb : runWriteBlocks slave [(0, vs)] (0, 0) (setOvr ovr s)
      = (.ok (v.headD 0, 0 + v.getD 1 0),
         { setOvr ovr s with
           clock := (setOvr ovr s).clock + e.dur
           script := rest
           calls := (setOvr ovr s).calls ++ [Call.writeHolding slave 0 vs] }) := by
    simp only [runWriteBlocks, step, hs1, hres]
  show writeRetry defT ovr (tc.getD defTc) ((setOvr ovr s).clock) slave
      (writeBlocks 0 vs) ((setOvr ovr s).script.length + 1) (setOvr ovr s) = _
  rw [hwb]
  simp only [writeRetry, hrb, Nat.zero_add]

theorem pollLoop_ok (defT : Int) (defTc : Nat) (slave : Int) (numOut : Nat)
    (ovr : Option Int) (tc : Option Nat) (h99 : numOut ≤ 99) :
    ∀ (fuel : Nat) (s : ClientState) (regs : List Nat) (s' : ClientState),
      pollLoop defT defTc slave numOut ovr tc fuel s = (.ok regs, s') →
      regs.headD 0 &&& 0x8000 = 0 ∧
      (∃ e ∈ s.script, e.res = .ok regs) ∧
      ∃ L, s'.calls = s.calls ++ L ∧
        ∀ cl ∈ L, cl = Call.readHolding slave 0 (max (1 + numOut) 2) := by
  have hn1 : 1 ≤ max (1 + numOut) 2 := by omega
  have hn2 : max (1 + numOut) 2 ≤ 100 := by omega
  intro fuel
  induction fuel with
  | zero => intro s regs s' h; simp [pollLoop] at h
  | succ fuel ih =>
    intro s regs s' h
    rcases hr : read_holding_register defT defTc slave 0 (max (1 + numOut) 2) ovr tc s
      with ⟨rres, s2⟩
    simp only [pollLoop, hr] at h
    cases rres with
    | error er => exact absurd (congrArg Prod.fst h) (by simp)
    | ok regs2 =>
      have hif : (if regs2.length < 1 then
            ((Except.error ExErr.shortResponse : Except ExErr (List Nat)), restoreIf ovr defT s2)
          else if regs2.headD 0 &&& 0x8000 = 0 then
            ((Except.ok regs2 : Except ExErr (List Nat)), s2)
          else pollLoop defT defTc slave numOut ovr tc fuel s2) = (.ok regs, s') := h
      by_cases hl : regs2.length < 1
      · rw [if_pos hl] at hif
        exact absurd (congrArg Prod.fst hif) (by simp)
      · rw [if_neg hl] at hif
        by_cases hbit : regs2.headD 0 &&& 0x8000 = 0
        · rw [if_pos hbit] at hif
          have hregs : regs2 = regs := Except.ok.inj (congrArg Prod.fst hif)
          have hs2 : s2 = s' := congrArg Prod.snd hif
          subst hregs
          subst hs2
          refine ⟨hbit, read_holding_ok_entry defT defTc slave _ ovr tc s regs2 s2 hn1 hn2 hr, ?_⟩
          obtain ⟨k, L, hsc, hca, hall⟩ :=
            read_holding_state2 defT defTc slave _ ovr tc s _ s2 hn1 hn2 hr
          exact ⟨L, hca, hall⟩
        · rw [if_neg hbit] at hif
          obtain ⟨hb, ⟨e, he, hres⟩, L2, hc2, hall2⟩ := ih s2 regs s' hif
          obtain ⟨k, L1, hsc, hca, hall1⟩ :=
            read_holding_state2 defT defTc slave _ ovr tc s _ s2 hn1 hn2 hr
          refine ⟨hb, ⟨e, ?_, hres⟩, L1 ++ L2, ?_, ?_⟩
          · rw [hsc] at he
            exact List.drop_subset k s.script he
          · rw [hc2, hca, List.append_assoc]
          · intro cl hcl
            rcases List.mem_append.mp hcl with hcl | hcl
            · exact hall1 cl hcl
            · exact hall2 cl hcl

theorem pollLoop_first_short (defT : Int) (defTc : Nat) (slave : Int) (numOut : Nat)
    (ovr : Option Int) (tc : Option Nat) (h99 : numOut ≤ 99) (e1 : Entry)
    (rest : List Entry) (s : ClientState) (fuel : Nat)
    (hs : s.script = e1 :: rest) (he1 : e1.res = .ok []) :
    (pollLoop defT defTc slave numOut ovr tc (fuel + 1) s).1 = .error .shortResponse ∧
    (pollLoop defT defTc slave numOut ovr tc (fuel + 1) s).2.script = rest := by
  have hn1 : 1 ≤ max (1 + numOut) 2 := by omega
  have hn2 : max (1 + numOut) 2 ≤ 100 := by omega
  have hr := read_holding_first_ok defT defTc slave (max (1 + numOut) 2) ovr tc e1 rest
    s [] hn1 hn2 hs he1
  constructor
  · simp [pollLoop, hr]
  · simp [pollLoop, hr, restoreIf_script]


/-- Claim C1 (code bug): the spec says both chunked reads merge per-chunk
results in ascending logical address order and that a 1000-register input
read issues exactly 10 chunks.  `read_holding_register` does merge ascending
(third conjunct) and the chunk count is right (fourth conjunct), but
`read_input_register` iterates its chunks in ascending order while still
prepending each chunk result (`_result = list(_reg) + _result`), so a
200-register input read from address 0 returns registers 100..199 before
registers 0..99 — not the ascending single-read result. -/
theorem claim_C1 :
    (read_input_register 1 100 1 0 200 none none
        ⟨0, 1, [⟨0, .ok (List.range' 0 100)⟩, ⟨0, .ok (List.range' 100 100)⟩], []⟩).1
      = .ok (List.range' 100 100 ++ List.range' 0 100) ∧
    List.range' 100 100 ++ List.range' 0 100 ≠ List.range' 0 200 ∧
    (read_holding_register 1 100 1 0 200 none none
        ⟨0, 1, [⟨0, .ok (List.range' 100 100)⟩, ⟨0, .ok (List.range' 0 100)⟩], []⟩).1
      = .ok (List.range' 0 200) ∧
    (readBlocks 0 1000).length = 10 := by decide

/-- Claim C2 (code bug): the spec says a single command deadline measured
from dispatch spans all polls and the call times out once it is exceeded.
In the code every `read_holding_register` poll takes a fresh `_start_time`
and the `while True` poll loop of `execute_command` has no deadline check at
all: with `timeout_command = 2` ticks and a device that stays pending for
three polls of 3 ticks each, the call performs all four polls (12 ticks
elapsed, far past the 2-tick deadline) and returns success instead of a
timeout failure. -/
theorem claim_C2 :
    execute_command 1 2 1 0x8001 [] 1 none none
        ⟨0, 1, [⟨0, .ok [0, 1]⟩, ⟨3, .ok [0x8001, 0]⟩, ⟨3, .ok [0x8001, 0]⟩,
                ⟨3, .ok [0x8001, 0]⟩, ⟨3, .ok [0, 7]⟩], []⟩
      = (.ok [7], ⟨12, 1, [],
          [.writeHolding 1 0 [0x8001], .readHolding 1 0 2, .readHolding 1 0 2,
           .readHolding 1 0 2, .readHolding 1 0 2]⟩) ∧ (2 : Nat) < 12 := by decide

/-- Claim C3 (code bug): the decode `if _err > 2 ** 15: _err = -(2 ** 16 - _err)`
tests strictly greater than 32768, not greater than 32767, so the unsigned
encoding 32768 of the signed value -32768 is left as +32768 and the
round trip fails at exactly that point; every other boundary value decodes
as the claim says. -/
theorem claim_C3 :
    decodeErr 32768 = 32768 ∧ (32768 : Int) ≠ -32768 ∧
    ((-32768 : Int) % 65536) = 32768 ∧ decodeErr 32769 = -32767 ∧
    decodeErr 32767 = 32767 ∧ decodeErr 65535 = -1 := by decide

/-- Claim C4 (code bug): the spec says every device-reported error code is
surfaced as a `ModbusControlError`.  The message formatting
`ModbusControlStatus(_err)` raises `ValueError` for any code outside
`{-1, -2}` before the `raise ModbusControlError` line is reached, so a
device error code of 3 escapes as a `ValueError` (first two conjuncts);
the enumerated code -1 (raw 0xFFFF) is surfaced correctly (last conjunct). -/
theorem claim_C4 :
    (execute_command 1 100 1 2 [] 0 none none
        ⟨0, 1, [⟨0, .ok [0, 1]⟩, ⟨0, .ok [0x4000, 3]⟩], []⟩).1 = .error .valueError ∧
    isModbusControlError .valueError = false ∧
    (execute_command 1 100 1 2 [] 0 none none
        ⟨0, 1, [⟨0, .ok [0, 1]⟩, ⟨0, .ok [0x4000, 0xFFFF]⟩], []⟩).1
      = .error (.deviceError (-1)) := by decide

/-- Claim C8 (code bug): with a `timeout_modbus` override of 5 (session
default 1), a transport `modbus.ModbusError` whose exception code 11 is not
in the `ModbusStatus` enumeration makes the handler's `ModbusStatus(code)`
lookup raise `ValueError` before the restore line runs, so
`read_input_register` returns with the receive timeout still at the
override value 5 — contradicting the claim that it is restored on every
exit path. -/
theorem claim_C8 :
    read_input_register 1 100 1 0 1 (some 5) none ⟨0, 1, [⟨0, .modbusError 11⟩], []⟩
      = (.error .valueError, ⟨0, 5, [], [.readInput 1 0 1]⟩) ∧ (5 : Int) ≠ 1 ∧
    ModbusStatus.fromCode 11 = none := by decide

/-- Claim C10: a zero-length transfer (read of 0 registers or write of an
empty list) issues no transport call at all for any slave, any integer
address and any pending script: the reads return an empty values list, the
write returns status (0, 0), the clock, script and call trace are untouched,
and the receive timeout ends up at the session default when an override was
supplied and is left unchanged otherwise. -/
theorem claim_C10 :
    ∀ (defT : Int) (defTc : Nat) (slave address : Int) (ovr : Option Int)
      (tc : Option Nat) (s0 : ClientState),
      read_input_register defT defTc slave address 0 ovr tc s0
        = (.ok [], { s0 with tmo := match ovr with | some _ => defT | none => s0.tmo }) ∧
      read_holding_register defT defTc slave address 0 ovr tc s0
        = (.ok [], { s0 with tmo := match ovr with | some _ => defT | none => s0.tmo }) ∧
      write_holding_register defT defTc slave address [] ovr tc s0
        = (.ok (0, 0), { s0 with tmo := match ovr with | some _ => defT | none => s0.tmo }) := by
  intro defT defTc slave address ovr tc s0
  cases ovr <;> exact ⟨rfl, rfl, rfl⟩

/-- Claim C5 (amended): if a poll response of `execute_command` contains
fewer than 1 register, the call fails immediately — it raises
`ModbusInvalidResponseError` (not a `ModbusControlError`), restores the
timeout override, and performs no retry regardless of how much of the
command deadline remains (the remaining script is left untouched). -/
theorem claim_C5 :
    ∀ (defT : Int) (defTc : Nat) (slave : Int) (command : Nat) (paramIn : List Nat)
      (numOut : Nat) (ovr : Option Int) (tc : Option Nat) (e0 e1 : Entry)
      (rest : List Entry) (s0 : ClientState),
      paramIn.length ≤ 99 → numOut ≤ 99 →
      s0.script = e0 :: e1 :: rest → e0.res.isOk = true → e1.res = .ok [] →
      (execute_command defT defTc slave command paramIn numOut ovr tc s0).1
          = .error .shortResponse ∧
      (execute_command defT defTc slave command paramIn numOut ovr tc s0).2.script = rest ∧
      isModbusControlError .shortResponse = false := by
  intro defT defTc slave command paramIn numOut ovr tc e0 e1 rest s0 hp99 h99 hs hok he1
  obtain ⟨v, hv⟩ : ∃ v, e0.res = .ok v := by
    cases hres : e0.res with
    | ok v => exact ⟨v, rfl⟩
    | _ => rw [hres] at hok; simp [TRes.isOk] at hok
  have hvs : (command :: paramIn) ≠ [] := List.cons_ne_nil _ _
  have hvlen : (command :: paramIn).length ≤ 100 := by
    simp only [List.length_cons]
    omega
  have hw := write_holding_first_ok defT defTc slave (command :: paramIn) ovr tc e0
    (e1 :: rest) s0 v hvs hvlen hs hv
  set s1 := restoreIf ovr defT
    { setOvr ovr s0 with
      clock := (setOvr ovr s0).clock + e0.dur
      script := e1 :: rest
      calls := (setOvr ovr s0).calls ++ [Call.writeHolding slave 0 (command :: paramIn)] }
    with hS
  have hs1script : s1.script = e1 :: rest := by
    rw [hS, restoreIf_script]
  have hpoll := pollLoop_first_short defT defTc slave numOut ovr tc h99 e1 rest s1
    s1.script.length hs1script he1
  rcases hp : pollLoop defT defTc slave numOut ovr tc (s1.script.length + 1) s1 with ⟨pres, s2⟩
  rw [hp] at hpoll
  dsimp only at hpoll
  obtain ⟨hp1, hp2⟩ := hpoll
  subst hp1
  refine ⟨?_, ?_, by decide⟩
  · simp only [execute_command, hw, hp]
  · simp only [execute_command, hw, hp]
    exact hp2

/-- Claim C5 counterexample: with a huge command deadline (1000 ticks, none
elapsed) and a further well-formed poll available in the script, an empty
poll response makes `execute_command` fail at once with the response-length
error, leaving the good poll entry unconsumed — the code does not treat the
short response as a retryable anomaly subject to the deadline. -/
theorem claim_C5_counterexample :
    execute_command 1 1000 1 2 [] 0 none none
        ⟨0, 1, [⟨0, .ok [0, 1]⟩, ⟨0, .ok []⟩, ⟨0, .ok [0, 5]⟩], []⟩
      = (.error .shortResponse,
         ⟨0, 1, [⟨0, .ok [0, 5]⟩], [.writeHolding 1 0 [2], .readHolding 1 0 2]⟩) ∧
    (0 : Nat) < 1000 ∧ isModbusControlError .shortResponse = false := by decide

/-- Claim C5 witness: the amended statement instantiated on the
counterexample script. -/
theorem claim_C5_witness :
    ((([] : List Nat).length ≤ 99 ∧ (0 : Nat) ≤ 99 ∧
      (⟨0, 1, [⟨0, .ok [0, 1]⟩, ⟨0, .ok []⟩, ⟨0, .ok [0, 5]⟩], []⟩ : ClientState).script
          = ⟨0, .ok [0, 1]⟩ :: ⟨0, .ok []⟩ :: [⟨0, .ok [0, 5]⟩] ∧
      (⟨0, TRes.ok [0, 1]⟩ : Entry).res.isOk = true ∧
      (⟨0, TRes.ok []⟩ : Entry).res = .ok []) ∧
     ((execute_command 1 1000 1 2 [] 0 none none
          ⟨0, 1, [⟨0, .ok [0, 1]⟩, ⟨0, .ok []⟩, ⟨0, .ok [0, 5]⟩], []⟩).1
        = .error .shortResponse ∧
      (execute_command 1 1000 1 2 [] 0 none none
          ⟨0, 1, [⟨0, .ok [0, 1]⟩, ⟨0, .ok []⟩, ⟨0, .ok [0, 5]⟩], []⟩).2.script
        = [⟨0, .ok [0, 5]⟩] ∧
      isModbusControlError .shortResponse = false)) :=
  ⟨⟨by decide, by decide, rfl, rfl, rfl⟩,
   claim_C5 1 1000 1 2 [] 0 none none ⟨0, .ok [0, 1]⟩ ⟨0, .ok []⟩ [⟨0, .ok [0, 5]⟩]
     ⟨0, 1, [⟨0, .ok [0, 1]⟩, ⟨0, .ok []⟩, ⟨0, .ok [0, 5]⟩], []⟩
     (by decide) (by decide) rfl rfl rfl⟩

/-- Claim C6: for a write of more than 100 registers whose first dispatch
attempt succeeds, the transport writes are issued exactly in `writeBlocks`
order, and that order puts the chunk starting at the caller's (lowest)
address strictly after every other chunk: `writeBlocks` decomposes as
`pre ++ [(address, first 100 values)]` with every chunk in `pre` at a
strictly higher address. -/
theorem claim_C6 :
    ∀ (defT : Int) (defTc : Nat) (slave address : Int) (values : List Nat)
      (ovr : Option Int) (tc : Option Nat) (s0 : ClientState),
      100 < values.length →
      (writeBlocks address values).length ≤ s0.script.length →
      (∀ e ∈ s0.script.take (writeBlocks address values).length, e.res.isOk = true) →
      ∃ r s', write_holding_register defT defTc slave address values ovr tc s0 = (.ok r, s') ∧
        s'.calls = s0.calls ++ (writeBlocks address values).map
            (fun b => Call.writeHolding slave b.1 b.2) ∧
        ∃ pre, writeBlocks address values = pre ++ [(address, values.take 100)] ∧
          ∀ b ∈ pre, address < b.1 := by
  intro defT defTc slave address values ovr tc s0 hgt hlen hok
  have hlen' : (writeBlocks address values).length ≤ (setOvr ovr s0).script.length := by
    rw [setOvr_script]
    exact hlen
  have hok' : ∀ e ∈ (setOvr ovr s0).script.take (writeBlocks address values).length,
      e.res.isOk = true := by
    rw [setOvr_script]
    exact hok
  obtain ⟨r, s2, hrun, hcalls, hscript, htmo⟩ :=
    runWriteBlocks_ok slave (writeBlocks address values) (0, 0) (setOvr ovr s0) hlen' hok'
  have hw : write_holding_register defT defTc slave address values ovr tc s0
      = (.ok r, restoreIf ovr defT s2) := by
    show writeRetry defT ovr (tc.getD defTc) ((setOvr ovr s0).clock) slave
        (writeBlocks address values) ((setOvr ovr s0).script.length + 1) (setOvr ovr s0) = _
    exact writeRetry_first_attempt_ok defT ovr _ _ slave _ _ _ s2 r hrun
  have hvne : values ≠ [] := by
    intro hv
    rw [hv] at hgt
    simp at hgt
  refine ⟨r, restoreIf ovr defT s2, hw, ?_, ?_⟩
  · rw [restoreIf_calls, hcalls, setOvr_calls]
  · refine ⟨(ascChunks (address + 100) (values.drop 100)).reverse, ?_, ?_⟩
    · rw [writeBlocks, ascChunks_cons address values hvne, List.reverse_cons]
    · intro b hb
      rw [List.mem_reverse] at hb
      have := ascChunks_lb (address + 100) (values.drop 100) b hb
      omega

/-- Claim C6 witness: a 101-register write split into two chunks, the
address-0 chunk transmitted second. -/
theorem claim_C6_witness :
    ((100 < (List.replicate 101 (5 : Nat)).length ∧
      (writeBlocks 0 (List.replicate 101 (5 : Nat))).length ≤
        (⟨0, 1, [⟨0, .ok [100, 1]⟩, ⟨0, .ok [0, 100]⟩], []⟩ : ClientState).script.length ∧
      ∀ e ∈ (⟨0, 1, [⟨0, .ok [100, 1]⟩, ⟨0, .ok [0, 100]⟩], []⟩ : ClientState).script.take
          (writeBlocks 0 (List.replicate 101 (5 : Nat))).length, e.res.isOk = true) ∧
     ∃ r s', write_holding_register 1 100 1 0 (List.replicate 101 (5 : Nat)) none none
          ⟨0, 1, [⟨0, .ok [100, 1]⟩, ⟨0, .ok [0, 100]⟩], []⟩ = (.ok r, s') ∧
        s'.calls = ([] : List Call) ++ (writeBlocks 0 (List.replicate 101 (5 : Nat))).map
            (fun b => Call.writeHolding 1 b.1 b.2) ∧
        ∃ pre, writeBlocks 0 (List.replicate 101 (5 : Nat))
            = pre ++ [(0, (List.replicate 101 (5 : Nat)).take 100)] ∧
          ∀ b ∈ pre, 0 < b.1) :=
  ⟨⟨by decide, by decide, by decide⟩,
   claim_C6 1 100 1 0 (List.replicate 101 5) none none
     ⟨0, 1, [⟨0, .ok [100, 1]⟩, ⟨0, .ok [0, 100]⟩], []⟩
     (by decide) (by decide) (by decide)⟩

/-- Claim C7: a `modbus.ModbusError` carrying exception code 1, 2 or 3
(illegal function / illegal data address / illegal data value) on the first
transport call makes `read_input_register`, `read_holding_register` and
`write_holding_register` raise `ModbusControlError` immediately: exactly one
script entry is consumed (no retry), for every command deadline. -/
theorem claim_C7 :
    ∀ (defT : Int) (defTc : Nat) (slave address : Int) (numOut : Nat) (values : List Nat)
      (c : Int) (d : Nat) (rest : List Entry) (ovr : Option Int) (tc : Option Nat)
      (s0 : ClientState),
      (c = 1 ∨ c = 2 ∨ c = 3) → numOut ≠ 0 → values ≠ [] →
      s0.script = ⟨d, .modbusError c⟩ :: rest →
      ∃ st, ModbusStatus.fromCode c = some st ∧
        isModbusControlError (.modbusAbort st) = true ∧
        (read_input_register defT defTc slave address numOut ovr tc s0).1
            = .error (.modbusAbort st) ∧
        (read_input_register defT defTc slave address numOut ovr tc s0).2.script = rest ∧
        (read_holding_register defT defTc slave address numOut ovr tc s0).1
            = .error (.modbusAbort st) ∧
        (read_holding_register defT defTc slave address numOut ovr tc s0).2.script = rest ∧
        (write_holding_register defT defTc slave address values ovr tc s0).1
            = .error (.modbusAbort st) ∧
        (write_holding_register defT defTc slave address values ovr tc s0).2.script = rest := by
  intro defT defTc slave address numOut values c d rest ovr tc s0 hc hn hv hs
  obtain ⟨st, hst⟩ : ∃ st, ModbusStatus.fromCode c = some st := by
    rcases hc with rfl | rfl | rfl
    · exact ⟨.illegalFunction, by decide⟩
    · exact ⟨.illegalDataAddress, by decide⟩
    · exact ⟨.illegalDataValue, by decide⟩
  have hs1 : (setOvr ovr s0).script = ⟨d, .modbusError c⟩ :: rest := by
    rw [setOvr_script, hs]
  obtain ⟨b1, bs1, hbl1⟩ := List.exists_cons_of_ne_nil (readBlocks_ne_nil address numOut hn)
  obtain ⟨b2, bs2, hbl2⟩ := List.exists_cons_of_ne_nil
    (fun hrev => readBlocks_ne_nil address numOut hn (List.reverse_eq_nil_iff.mp hrev))
  obtain ⟨b3, bs3, hbl3⟩ := List.exists_cons_of_ne_nil
    (fun hrev => ascChunks_ne_nil address values hv (List.reverse_eq_nil_iff.mp hrev))
  have hfatal1 := readRetry_first_fatal defT ovr (tc.getD defTc) ((setOvr ovr s0).clock)
    slave Call.readInput b1 bs1 c st d rest ((setOvr ovr s0).script.length)
    (setOvr ovr s0) hs1 hst
  have hfatal2 := readRetry_first_fatal defT ovr (tc.getD defTc) ((setOvr ovr s0).clock)
    slave Call.readHolding b2 bs2 c st d rest ((setOvr ovr s0).script.length)
    (setOvr ovr s0) hs1 hst
  have hfatal3 := writeRetry_first_fatal defT ovr (tc.getD defTc) ((setOvr ovr s0).clock)
    slave b3 bs3 c st d rest ((setOvr ovr s0).script.length)
    (setOvr ovr s0) hs1 hst
  refine ⟨st, hst, by simp [isModbusControlError], ?_, ?_, ?_, ?_, ?_, ?_⟩
  · show (readRetry defT ovr (tc.getD defTc) ((setOvr ovr s0).clock) slave Call.readInput
        (readBlocks address numOut) ((setOvr ovr s0).script.length + 1) (setOvr ovr s0)).1 = _
    rw [hbl1, hfatal1]
  · show (readRetry defT ovr (tc.getD defTc) ((setOvr ovr s0).clock) slave Call.readInput
        (readBlocks address numOut) ((setOvr ovr s0).script.length + 1)
        (setOvr ovr s0)).2.script = rest
    rw [hbl1, hfatal1, restoreIf_script]
  · show (readRetry defT ovr (tc.getD defTc) ((setOvr ovr s0).clock) slave Call.readHolding
        ((readBlocks address numOut).reverse) ((setOvr ovr s0).script.length + 1)
        (setOvr ovr s0)).1 = _
    rw [hbl2, hfatal2]
  · show (readRetry defT ovr (tc.getD defTc) ((setOvr ovr s0).clock) slave Call.readHolding
        ((readBlocks address numOut).reverse) ((setOvr ovr s0).script.length + 1)
        (setOvr ovr s0)).2.script = rest
    rw [hbl2, hfatal2, restoreIf_script]
  · show (writeRetry defT ovr (tc.getD defTc) ((setOvr ovr s0).clock) slave
        (writeBlocks address values) ((setOvr ovr s0).script.length + 1) (setOvr ovr s0)).1 = _
    rw [writeBlocks, hbl3, hfatal3]
  · show (writeRetry defT ovr (tc.getD defTc) ((setOvr ovr s0).clock) slave
        (writeBlocks address values) ((setOvr ovr s0).script.length + 1)
        (setOvr ovr s0)).2.script = rest
    rw [writeBlocks, hbl3, hfatal3, restoreIf_script]

/-- Claim C7 witness: illegal data address (exception code 2) at address
1000, aborted without retry by all three register functions. -/
theorem claim_C7_witness :
    ((((2 : Int) = 1 ∨ (2 : Int) = 2 ∨ (2 : Int) = 3) ∧ (3 : Nat) ≠ 0 ∧
      ([7] : List Nat) ≠ [] ∧
      (⟨0, 1, [⟨0, .modbusError 2⟩], []⟩ : ClientState).script
          = ⟨0, .modbusError 2⟩ :: []) ∧
     ∃ st, ModbusStatus.fromCode 2 = some st ∧
       isModbusControlError (.modbusAbort st) = true ∧
       (read_input_register 1 100 1 1000 3 none none
           ⟨0, 1, [⟨0, .modbusError 2⟩], []⟩).1 = .error (.modbusAbort st) ∧
       (read_input_register 1 100 1 1000 3 none none
           ⟨0, 1, [⟨0, .modbusError 2⟩], []⟩).2.script = [] ∧
       (read_holding_register 1 100 1 1000 3 none none
           ⟨0, 1, [⟨0, .modbusError 2⟩], []⟩).1 = .error (.modbusAbort st) ∧
       (read_holding_register 1 100 1 1000 3 none none
           ⟨0, 1, [⟨0, .modbusError 2⟩], []⟩).2.script = [] ∧
       (write_holding_register 1 100 1 1000 [7] none none
           ⟨0, 1, [⟨0, .modbusError 2⟩], []⟩).1 = .error (.modbusAbort st) ∧
       (write_holding_register 1 100 1 1000 [7] none none
           ⟨0, 1, [⟨0, .modbusError 2⟩], []⟩).2.script = []) :=
  ⟨⟨by decide, by decide, by decide, rfl⟩,
   claim_C7 1 100 1 1000 3 [7] 2 0 [] none none ⟨0, 1, [⟨0, .modbusError 2⟩], []⟩
     (by decide) (by decide) (by decide) rfl⟩

/-- Claim C9: when `execute_command` succeeds and the transport returns the
requested quantity on every poll, each completion poll is a holding-register
read of exactly `max (1 + numOut) 2` registers at address 0, the final poll
has bit 15 of register 0 clear and bit 14 clear, and the returned values are
exactly registers 1 .. numOut of that final poll — `numOut` values. -/
theorem claim_C9 :
    ∀ (defT : Int) (defTc : Nat) (slave : Int) (command : Nat) (paramIn : List Nat)
      (numOut : Nat) (ovr : Option Int) (tc : Option Nat) (e0 : Entry) (ps : List Entry)
      (s0 : ClientState) (vals : List Nat) (s' : ClientState),
      paramIn.length ≤ 99 → numOut ≤ 99 →
      s0.script = e0 :: ps → e0.res.isOk = true →
      (ps.all fun e => e.res.okLenIs (max (1 + numOut) 2)) = true →
      execute_command defT defTc slave command paramIn numOut ovr tc s0 = (.ok vals, s') →
      vals.length = numOut ∧
      (∃ regs, (∃ e ∈ ps, e.res = .ok regs) ∧
        regs.headD 0 &&& 0x8000 = 0 ∧ regs.headD 0 &&& 0x4000 = 0 ∧
        regs.length = max (1 + numOut) 2 ∧ vals = (regs.drop 1).take numOut) ∧
      (∃ L, s'.calls = s0.calls ++ Call.writeHolding slave 0 (command :: paramIn) :: L ∧
        ∀ cl ∈ L, cl = Call.readHolding slave 0 (max (1 + numOut) 2)) := by
  intro defT defTc slave command paramIn numOut ovr tc e0 ps s0 vals s' hp99 h99 hs hok
    hlenall hexec
  obtain ⟨v, hv⟩ : ∃ v, e0.res = .ok v := by
    cases hres : e0.res with
    | ok v => exact ⟨v, rfl⟩
    | _ => rw [hres] at hok; simp [TRes.isOk] at hok
  have hvs : (command :: paramIn) ≠ [] := List.cons_ne_nil _ _
  have hvlen : (command :: paramIn).length ≤ 100 := by
    simp only [List.length_cons]
    omega
  have hw := write_holding_first_ok defT defTc slave (command :: paramIn) ovr tc e0
    ps s0 v hvs hvlen hs hv
  set s1 := restoreIf ovr defT
    { setOvr ovr s0 with
      clock := (setOvr ovr s0).clock + e0.dur
      script := ps
      calls := (setOvr ovr s0).calls ++ [Call.writeHolding slave 0 (command :: paramIn)] }
    with hS
  have hs1script : s1.script = ps := by rw [hS, restoreIf_script]
  have hs1calls : s1.calls = s0.calls ++ [Call.writeHolding slave 0 (command :: paramIn)] := by
    rw [hS, restoreIf_calls]
    dsimp only
    rw [setOvr_calls]
  simp only [execute_command, hw] at hexec
  rcases hp : pollLoop defT defTc slave numOut ovr tc (s1.script.length + 1) s1 with ⟨pres, s2⟩
  rw [hp] at hexec
  cases pres with
  | error er => exact absurd (congrArg Prod.fst hexec) (by simp)
  | ok regs2 =>
    have hif : (if regs2.headD 0 &&& 0x4000 ≠ 0 then
          if regs2.length < 2 then
            ((Except.error ExErr.shortErrorResponse : Except ExErr (List Nat)),
              restoreIf ovr defT s2)
          else
            match ModbusControlStatus.fromCode (decodeErr (regs2.getD 1 0)) with
            | some _ =>
              ((Except.error (ExErr.deviceError (decodeErr (regs2.getD 1 0)))
                  : Except ExErr (List Nat)), restoreIf ovr defT s2)
            | none => ((Except.error ExErr.valueError : Except ExErr (List Nat)), s2)
        else ((Except.ok ((regs2.drop 1).take numOut) : Except ExErr (List Nat)),
          restoreIf ovr defT s2)) = (.ok vals, s') := hexec
    by_cases hb14 : regs2.headD 0 &&& 0x4000 ≠ 0
    · rw [if_pos hb14] at hif
      by_cases hl2 : regs2.length < 2
      · rw [if_pos hl2] at hif
        exact absurd (congrArg Prod.fst hif) (by simp)
      · rw [if_neg hl2] at hif
        rcases hmc : ModbusControlStatus.fromCode (decodeErr (regs2.getD 1 0)) with _ | mc
        · simp only [hmc] at hif
          exact absurd (congrArg Prod.fst hif) (by simp)
        · simp only [hmc] at hif
          exact absurd (congrArg Prod.fst hif) (by simp)
    · rw [if_neg hb14] at hif
      have hvals : (regs2.drop 1).take numOut = vals := Except.ok.inj (congrArg Prod.fst hif)
      have hs2e : restoreIf ovr defT s2 = s' := congrArg Prod.snd hif
      obtain ⟨hbit15, ⟨e, he, hres⟩, L, hc, hall⟩ :=
        pollLoop_ok defT defTc slave numOut ovr tc h99 (s1.script.length + 1) s1 regs2 s2 hp
      rw [hs1script] at he
      have hlen : regs2.length = max (1 + numOut) 2 := by
        have hall2 := List.all_eq_true.mp hlenall e he
        rw [hres] at hall2
        simpa [TRes.okLenIs] using hall2
      refine ⟨?_, ⟨regs2, ⟨e, he, hres⟩, hbit15, not_ne_iff.mp hb14, hlen, hvals.symm⟩,
        ⟨L, ?_, hall⟩⟩
      · rw [← hvals]
        simp only [List.length_take, List.length_drop]
        omega
      · rw [← hs2e, restoreIf_calls, hc, hs1calls, List.append_assoc]
        rfl

/-- Claim C9 witness: command 0x8001 with parameters [13, 1] and two
expected outputs; one pending poll, then a clean completion echoing
[13, 1]. -/
theorem claim_C9_witness :
    ((([13, 1] : List Nat).length ≤ 99 ∧ (2 : Nat) ≤ 99 ∧
      (⟨0, 1, [⟨0, .ok [0, 3]⟩, ⟨0, .ok [0x8001, 0, 0]⟩, ⟨0, .ok [1, 13, 1]⟩], []⟩
          : ClientState).script
        = ⟨0, .ok [0, 3]⟩ :: [⟨0, .ok [0x8001, 0, 0]⟩, ⟨0, .ok [1, 13, 1]⟩] ∧
      (⟨0, TRes.ok [0, 3]⟩ : Entry).res.isOk = true ∧
      (([⟨0, .ok [0x8001, 0, 0]⟩, ⟨0, .ok [1, 13, 1]⟩] : List Entry).all
        fun e => e.res.okLenIs (max (1 + 2) 2)) = true ∧
      execute_command 1 100 1 0x8001 [13, 1] 2 none none
          ⟨0, 1, [⟨0, .ok [0, 3]⟩, ⟨0, .ok [0x8001, 0, 0]⟩, ⟨0, .ok [1, 13, 1]⟩], []⟩
        = (.ok [13, 1],
           ⟨0, 1, [], [.writeHolding 1 0 [0x8001, 13, 1], .readHolding 1 0 3,
                       .readHolding 1 0 3]⟩)) ∧
     (([13, 1] : List Nat).length = 2 ∧
      (∃ regs, (∃ e ∈ [(⟨0, .ok [0x8001, 0, 0]⟩ : Entry), ⟨0, .ok [1, 13, 1]⟩],
            e.res = .ok regs) ∧
        regs.headD 0 &&& 0x8000 = 0 ∧ regs.headD 0 &&& 0x4000 = 0 ∧
        regs.length = max (1 + 2) 2 ∧ ([13, 1] : List Nat) = (regs.drop 1).take 2) ∧
      (∃ L, (⟨0, 1, [], [.writeHolding 1 0 [0x8001, 13, 1], .readHolding 1 0 3,
              .readHolding 1 0 3]⟩ : ClientState).calls
          = ([] : List Call) ++ Call.writeHolding 1 0 (0x8001 :: [13, 1]) :: L ∧
        ∀ cl ∈ L, cl = Call.readHolding 1 0 (max (1 + 2) 2)))) :=
  ⟨⟨by decide, by decide, rfl, rfl, by decide, by decide⟩,
   claim_C9 1 100 1 0x8001 [13, 1] 2 none none ⟨0, .ok [0, 3]⟩
     [⟨0, .ok [0x8001, 0, 0]⟩, ⟨0, .ok [1, 13, 1]⟩]
     ⟨0, 1, [⟨0, .ok [0, 3]⟩, ⟨0, .ok [0x8001, 0, 0]⟩, ⟨0, .ok [1, 13, 1]⟩], []⟩
     [13, 1] ⟨0, 1, [], [.writeHolding 1 0 [0x8001, 13, 1], .readHolding 1 0 3,
       .readHolding 1 0 3]⟩
     (by decide) (by decide) rfl rfl (by decide) (by decide)⟩


end ModbusControl
